import Mathlib

/-!
# Verification of the jdhcp DHCP codec and server loop

Shallow embedding of the jdhcp repository: a DHCP (BOOTP-derived) wire-format
codec and a minimal UDP server loop, written in Go.  Bytes are modelled as
`Nat` (Go's `byte` typing keeps them below 256; theorems add that bound as a
hypothesis where it matters), byte slices as `List Nat`, Go maps as
association lists whose entry order stands for the map's unspecified
iteration order, and fallible functions return `Except`/sum-like result
types.  A dedicated `panic` result models a Go runtime fault (slice bounds,
nil dereference).

The repository snapshot holds several historical versions of some files; the
earlier variants are embedded under a `V0` suffix (e.g. `Options.MarshalBytesV0`
for the pre-sorting marshaller of src/unnamed/part_001).
-/

set_option maxRecDepth 40000
set_option maxHeartbeats 1000000

deriving instance DecidableEq for Except

namespace Jdhcp

/-- Go `type OptionCode byte` (src/unnamed/part_000): an option code is one byte. -/
abbrev OptionCode := Nat

/-- `OptionPad OptionCode = 0` (src/unnamed/part_000). -/
def OptionPad : OptionCode := 0

/-- `OptionEnd OptionCode = 255` (src/unnamed/part_000). -/
def OptionEnd : OptionCode := 255

/-- Option 1, subnet mask: the code of `Options.SubnetMask` (src/unnamed/part_004). -/
def OptionSubnetMask : OptionCode := 1

/-- `OptionRequestedIPAddress OptionCode = 50` (src/unnamed/part_000). -/
def OptionRequestedIPAddress : OptionCode := 50

/-- `OptionDHCPMessageType OptionCode = 53` (src/unnamed/part_000). -/
def OptionDHCPMessageType : OptionCode := 53

/-- `OptionParameterRequestList OptionCode = 55` (src/unnamed/part_000). -/
def OptionParameterRequestList : OptionCode := 55

/-- Option 58, renewal time: the code of `Options.RenewalTime` (src/unnamed/part_004). -/
def OptionRenewalTime : OptionCode := 58

/-- Option 59, rebinding time: the code of `Options.RebindingTime` (src/unnamed/part_004). -/
def OptionRebindingTime : OptionCode := 59

/-- Option 61, client identifier: the code of `Options.ClientID` (src/unnamed/part_004). -/
def OptionClientID : OptionCode := 61

/-- `Cookie uint32 = 0x63825363` (src/unnamed/part_000). -/
def Cookie : Nat := 0x63825363

/-- Go `type Options map[OptionCode][]byte` (src/unnamed/part_004).  Modelled
as an association list; the entry order stands for the map's (unspecified)
iteration order, and `Options.insert` keeps at most one entry per key, as a
Go map does. -/
abbrev Options := List (Nat × List Nat)

/-- Go map lookup `o[k]`: the value stored for key `k`, if any. -/
def Options.lookup (o : Options) (k : Nat) : Option (List Nat) :=
  (o.find? (fun p => p.1 == k)).map Prod.snd

/-- Go map assignment `o[k] = v`: any previous entry for `k` is replaced. -/
def Options.insert (o : Options) (k : Nat) (v : List Nat) : Options :=
  o.filter (fun p => p.1 != k) ++ [(k, v)]

/-- The key set of the map (Go `for k := range o`). -/
def Options.keys (o : Options) : List Nat := o.map Prod.fst

/-- A Go map never holds two entries for one key; lists built by
`Options.insert` from the empty list satisfy this. -/
def Options.NodupKeys (o : Options) : Prop := o.keys.Nodup

instance (o : Options) : Decidable o.NodupKeys := by
  unfold Options.NodupKeys; infer_instance

/-- The only error `bytes.Buffer.ReadByte` can return is `io.EOF`
(its documented behaviour: "If no byte is available, it returns error
io.EOF."). -/
inductive IOErr where
  | eof
deriving DecidableEq, Repr

/-- `bytes.Buffer.ReadByte`: pop the first byte of the buffer. -/
def bufReadByte : List Nat → Except IOErr (Nat × List Nat)
  | [] => .error .eof
  | b :: rest => .ok (b, rest)

theorem bufReadByte_ok_length {data : List Nat} {b : Nat} {rest : List Nat}
    (h : bufReadByte data = .ok (b, rest)) : rest.length < data.length := by
  cases data with
  | nil => simp [bufReadByte] at h
  | cons x xs =>
    simp only [bufReadByte, Except.ok.injEq, Prod.mk.injEq] at h
    obtain ⟨-, h2⟩ := h
    subst h2
    simp

/-- The scanning loop of `ParseOptions` (src/unnamed/part_004 lines 28-56):
read a code byte (`io.EOF` breaks the loop, any other error would be
returned); code 255 ends the scan, code 0 is a pad; otherwise read a length
byte (`io.EOF` again breaks) and take that many value bytes (`buf.Next`
truncates to what is available). -/
def parseOptionsLoop (data : List Nat) (opts : Options) : Except IOErr Options :=
  match h : bufReadByte data with
  | .error e => if e = .eof then .ok opts else .error e
  | .ok (code, rest) =>
    if code = OptionEnd then .ok opts
    else if code = OptionPad then parseOptionsLoop rest opts
    else
      match h2 : bufReadByte rest with
      | .error e => if e = .eof then .ok opts else .error e
      | .ok (l, rest2) =>
        parseOptionsLoop (rest2.drop l) (opts.insert code (rest2.take l))
termination_by data.length
decreasing_by
  · exact bufReadByte_ok_length h
  · have hy := bufReadByte_ok_length h
    have hz := bufReadByte_ok_length h2
    have hd : (rest2.drop l).length ≤ rest2.length := by
      rw [List.length_drop]; omega
    omega

/-- `ParseOptions` (src/unnamed/part_004 lines 24-58). -/
def ParseOptions (data : List Nat) : Except IOErr Options :=
  parseOptionsLoop data []

/-- One TLV item as emitted by `Options.MarshalBytes`: `WriteByte(byte(k))`,
`WriteByte(byte(len(v)))` (an int truncated to a byte), `Write(v)`. -/
def optTLV (k : Nat) (v : List Nat) : List Nat :=
  k :: v.length % 256 :: v

/-- `Options.MarshalBytes` (src/unnamed/part_004 lines 62-80): collect the
keys, sort them ascending (`sort.Slice`), write each key's TLV, terminate
with the end marker. -/
def Options.MarshalBytes (o : Options) : List Nat :=
  ((List.insertionSort (· ≤ ·) o.keys).flatMap
    (fun k => optTLV k ((o.lookup k).getD []))) ++ [OptionEnd]

/-- The earlier `Options.MarshalBytes` (src/unnamed/part_001 lines 61-72):
emits the entries in map iteration order — modelled by the entry order of the
association list, one of the orders the Go runtime may produce — with no
sorting, then the end marker. -/
def Options.MarshalBytesV0 (o : Options) : List Nat :=
  (o.flatMap (fun p => optTLV p.1 p.2)) ++ [OptionEnd]

/-- The scanning loop of the earlier `ParseOptions`
(src/unnamed/part_001 lines 31-56).  The `switch` has cases for pad (do
nothing), end (`break` — which in Go leaves only the `switch`, so the scan
continues with the next byte), the two known codes 50 and 53 (length byte
read and ignored, a fixed number of value bytes taken), and a default that
skips an unknown option using its length byte (`l` defaults to 0 when the
buffer is empty, errors from the inner reads being discarded). -/
def parseOptionsLoopV0 (data : List Nat) (opts : Options) : Options :=
  match data with
  | [] => opts
  | c :: rest =>
    if c = OptionPad then parseOptionsLoopV0 rest opts
    else if c = OptionEnd then parseOptionsLoopV0 rest opts
    else if c = OptionRequestedIPAddress then
      parseOptionsLoopV0 (rest.tail.drop 4) (opts.insert c (rest.tail.take 4))
    else if c = OptionDHCPMessageType then
      parseOptionsLoopV0 (rest.tail.drop 1) (opts.insert c (rest.tail.take 1))
    else
      parseOptionsLoopV0 (rest.tail.drop (rest.headD 0)) opts
termination_by data.length
decreasing_by
  · simp
  · simp
  · have : (rest.tail.drop 4).length ≤ rest.length := by
      rw [List.length_drop, List.length_tail]; omega
    simp; omega
  · have : (rest.tail.drop 1).length ≤ rest.length := by
      rw [List.length_drop, List.length_tail]; omega
    simp; omega
  · have : (rest.tail.drop (rest.headD 0)).length ≤ rest.length := by
      rw [List.length_drop, List.length_tail]; omega
    simp; omega

/-- The earlier `ParseOptions` (src/unnamed/part_001 lines 24-58); like the
newer one it can only ever return a nil error, so the embedding returns the
set directly. -/
def ParseOptionsV0 (data : List Nat) : Options :=
  parseOptionsLoopV0 data []

/-- Go slice expression `data[i:j]` (callers have established the bounds). -/
def slice (data : List Nat) (i j : Nat) : List Nat :=
  (data.drop i).take (j - i)

/-- `binary.BigEndian.UintNN` over a byte slice: the big-endian value. -/
def beVal (l : List Nat) : Nat :=
  l.foldl (fun a b => a * 256 + b) 0

/-- `binary.Write(&b, binary.BigEndian, x)` for a `uint16`. -/
def u16be (n : Nat) : List Nat :=
  [n / 256 % 256, n % 256]

/-- `binary.Write(&b, binary.BigEndian, x)` for a `uint32`. -/
def u32be (n : Nat) : List Nat :=
  [n / 16777216 % 256, n / 65536 % 256, n / 256 % 256, n % 256]

/-- `bytes.TrimRight(b, "\x5c000")`: strip all trailing zero bytes. -/
def trimNulRight (l : List Nat) : List Nat :=
  (l.reverse.dropWhile (· == 0)).reverse

/-- `buf := make([]byte, n); copy(buf, src)`: `src` truncated to and
zero-padded up to width `n`. -/
def padTo (n : Nat) (src : List Nat) : List Nat :=
  src.take n ++ List.replicate (n - src.length) 0

/-- `net.IP.To4`: a 4-byte address as is, the tail of a 16-byte
IPv4-in-IPv6 address, and nil for anything else. -/
def ipTo4 (ip : List Nat) : List Nat :=
  if ip.length = 4 then ip
  else if ip.length = 16 && ip.take 12 == [0, 0, 0, 0, 0, 0, 0, 0, 0, 0, 255, 255] then
    ip.drop 12
  else []

/-- `type Msg struct` (src/message.go lines 11-27).  The Go struct embeds
`Options`; Lean needs a distinct field name, `Opts`. -/
structure Msg where
  Op : Nat
  Htype : Nat
  Hlen : Nat
  Hops : Nat
  Xid : Nat
  Secs : Nat
  Flags : Nat
  Ciaddr : List Nat
  Yiaddr : List Nat
  Siaddr : List Nat
  Giaddr : List Nat
  Chaddr : List Nat
  Sname : List Nat
  File : List Nat
  Opts : Options
deriving DecidableEq, Repr

/-- The errors `ParseMsg` can return (src/message.go lines 41-80). -/
inductive ParseErr where
  | shortRead
  | badHlen (h : Nat)
  | badCookie (c : Nat)
  | optionsErr
deriving DecidableEq, Repr

/-- Outcome of `ParseMsg`; `panic` marks a Go runtime fault
(slice bounds out of range). -/
inductive PResult where
  | ok (m : Msg)
  | err (e : ParseErr)
  | panic
deriving DecidableEq, Repr

/-- `ParseMsg` (src/message.go lines 41-80), the cookie-validating variant:
under 236 bytes is a short read; the fixed fields sit at their RFC offsets,
`Sname`/`File` are trimmed of trailing NULs; `hlen` must be 6; then
`data[236:240]` is sliced for the cookie — a slice bound violation (fewer
than 240 bytes) is a runtime panic, not an error — and compared against
`Cookie`; the rest is handed to `ParseOptions`, whose (unreachable) error
would be wrapped and returned. -/
def ParseMsg (data : List Nat) : PResult :=
  if data.length < 236 then .err .shortRead
  else
    let hlen := data.getD 2 0
    if hlen ≠ 6 then .err (.badHlen hlen)
    else if data.length < 240 then .panic
    else
      let cookie := beVal (slice data 236 240)
      if cookie ≠ Cookie then .err (.badCookie cookie)
      else
        match ParseOptions (data.drop 240) with
        | .error _ => .err .optionsErr
        | .ok opts =>
          .ok { Op := data.getD 0 0, Htype := data.getD 1 0, Hlen := hlen,
                Hops := data.getD 3 0,
                Xid := beVal (slice data 4 8), Secs := beVal (slice data 8 10),
                Flags := beVal (slice data 10 12),
                Ciaddr := slice data 12 16, Yiaddr := slice data 16 20,
                Siaddr := slice data 20 24, Giaddr := slice data 24 28,
                Chaddr := slice data 28 34,
                Sname := trimNulRight (slice data 44 108),
                File := trimNulRight (slice data 108 236),
                Opts := opts }

/-- The bytes `Msg.MarshalBytes` assembles before the final length check
(src/message.go lines 88-118): header bytes, big-endian scalars, the four
addresses through `To4`, `chaddr`/`sname`/`file` zero-padded to 16/64/128
bytes, the cookie constant, then the marshalled options. -/
def Msg.contentBytes (m : Msg) : List Nat :=
  [m.Op, m.Htype, m.Hlen, m.Hops]
  ++ u32be m.Xid ++ u16be m.Secs ++ u16be m.Flags
  ++ ipTo4 m.Ciaddr ++ ipTo4 m.Yiaddr ++ ipTo4 m.Siaddr ++ ipTo4 m.Giaddr
  ++ padTo 16 m.Chaddr ++ padTo 64 m.Sname ++ padTo 128 m.File
  ++ u32be Cookie
  ++ m.Opts.MarshalBytes

/-- `Msg.MarshalBytes` (src/message.go lines 84-128): the assembled content,
zero-extended to exactly 272 bytes when it is shorter
(`padding := make([]byte, 272); copy(padding, b.Bytes())`). -/
def Msg.MarshalBytes (m : Msg) : List Nat :=
  let content := m.contentBytes
  if content.length < 272 then content ++ List.replicate (272 - content.length) 0
  else content

/-- The `Msg` struct of the lenient-variant file (src/server_test.go lines
329-346): same fixed fields plus a stored `Cookie` field. -/
structure MsgL where
  Op : Nat
  Htype : Nat
  Hlen : Nat
  Hops : Nat
  Xid : Nat
  Secs : Nat
  Flags : Nat
  Ciaddr : List Nat
  Yiaddr : List Nat
  Siaddr : List Nat
  Giaddr : List Nat
  Chaddr : List Nat
  Sname : List Nat
  File : List Nat
  Cookie : Nat
  Opts : Options
deriving DecidableEq, Repr

/-- The lenient `ParseMsg` (src/server_test.go lines 348-388): under 236
bytes is a short read, `hlen` must be 6, and a buffer of fewer than 240
bytes returns the message with an empty option set instead of reading the
cookie; otherwise the cookie is stored (not validated) and the remainder is
parsed as options.  No slice can exceed the checked bounds, so this variant
cannot fault. -/
def ParseMsgL (data : List Nat) : Except ParseErr MsgL :=
  if data.length < 236 then .error .shortRead
  else
    let hlen := data.getD 2 0
    let base : MsgL :=
      { Op := data.getD 0 0, Htype := data.getD 1 0, Hlen := hlen,
        Hops := data.getD 3 0,
        Xid := beVal (slice data 4 8), Secs := beVal (slice data 8 10),
        Flags := beVal (slice data 10 12),
        Ciaddr := slice data 12 16, Yiaddr := slice data 16 20,
        Siaddr := slice data 20 24, Giaddr := slice data 24 28,
        Chaddr := slice data 28 34,
        Sname := trimNulRight (slice data 44 108),
        File := trimNulRight (slice data 108 236),
        Cookie := 0, Opts := [] }
    if hlen ≠ 6 then .error (.badHlen hlen)
    else if data.length < 240 then .ok base
    else
      match ParseOptions (data.drop 240) with
      | .error _ => .error .optionsErr
      | .ok opts =>
        .ok { base with Cookie := beVal (slice data 236 240), Opts := opts }

/-- The earlier `Msg.MarshalBytes` (src/server_test.go lines 390-417): fields
written with no fixed-width padding (`Ciaddr` etc. raw, `Chaddr`, `Sname`,
`File` at their own lengths), cookie and options only when the option set is
non-empty, and no 272-byte floor. -/
def MsgL.MarshalBytesV0 (m : MsgL) : List Nat :=
  [m.Op, m.Htype, m.Hlen, m.Hops]
  ++ u32be m.Xid ++ u16be m.Secs ++ u16be m.Flags
  ++ m.Ciaddr ++ m.Yiaddr ++ m.Siaddr ++ m.Giaddr
  ++ m.Chaddr ++ m.Sname ++ m.File
  ++ (if m.Opts.length > 0 then u32be m.Cookie ++ m.Opts.MarshalBytes else [])

/-- Outcome of a typed option accessor; `panic` marks a Go runtime fault
(an out-of-range index inside `binary.BigEndian.Uint64`). -/
inductive AccResult (α : Type) where
  | ok (v : α)
  | errNotPresent
  | errShortRead
  | panic
deriving DecidableEq, Repr

/-- `Options.SubnetMask` (src/unnamed/part_004 lines 95-101): the raw value
as a mask when code 1 is present — the value's length is not checked. -/
def Options.SubnetMask (o : Options) : AccResult (List Nat) :=
  match o.lookup OptionSubnetMask with
  | none => .errNotPresent
  | some a => .ok a

/-- `Options.RequestedIPAddress` (src/unnamed/part_004 lines 104-110): the
raw value as an address when code 50 is present — length not checked. -/
def Options.RequestedIPAddress (o : Options) : AccResult (List Nat) :=
  match o.lookup OptionRequestedIPAddress with
  | none => .errNotPresent
  | some a => .ok a

/-- `Options.DHCPMessageType` (src/unnamed/part_004 lines 113-123): first
byte of the value of code 53; an empty value is a short read. -/
def Options.DHCPMessageType (o : Options) : AccResult Nat :=
  match o.lookup OptionDHCPMessageType with
  | none => .errNotPresent
  | some t => if t.length < 1 then .errShortRead else .ok (t.headD 0)

/-- `Options.ParameterRequestList` (src/unnamed/part_004 lines 126-138):
each byte of the value of code 55 as an option code. -/
def Options.ParameterRequestList (o : Options) : AccResult (List OptionCode) :=
  match o.lookup OptionParameterRequestList with
  | none => .errNotPresent
  | some pl => .ok pl

/-- `binary.BigEndian.Uint64`: faults (index out of range) on fewer than 8
bytes, otherwise the big-endian value of the first 8. -/
def uint64At (d : List Nat) : AccResult Nat :=
  if d.length < 8 then .panic else .ok (beVal (d.take 8))

/-- `Options.RenewalTime` (src/unnamed/part_004 lines 141-148): the value of
code 58 read with `binary.BigEndian.Uint64` — no length check guards the
8-byte read. -/
def Options.RenewalTime (o : Options) : AccResult Nat :=
  match o.lookup OptionRenewalTime with
  | none => .errNotPresent
  | some d => uint64At d

/-- `Options.RebindingTime` (src/unnamed/part_004 lines 151-158): the value
of code 59 read with `binary.BigEndian.Uint64` — no length check. -/
def Options.RebindingTime (o : Options) : AccResult Nat :=
  match o.lookup OptionRebindingTime with
  | none => .errNotPresent
  | some d => uint64At d

/-- `Options.ClientID` (src/unnamed/part_004 lines 161-174): type byte plus
identifier bytes of the value of code 61; under 2 bytes is a short read. -/
def Options.ClientID (o : Options) : AccResult (Nat × List Nat) :=
  match o.lookup OptionClientID with
  | none => .errNotPresent
  | some ci =>
    if ci.length < 2 then .errShortRead
    else .ok (ci.headD 0, ci.tail)

/-- Outcome of one dispatch of an inbound datagram. -/
inductive HandleResult where
  | dropped
  | noResponse
  | sent (payload : List Nat)
  | errored
  | panic
deriving DecidableEq, Repr

/-- `Server.handleMsg` (src/server_test.go lines 207-233): parse failures are
logged and dropped; the callback is invoked only when non-nil (under the read
lock); a nil result means no response; otherwise the response is marshalled
and written to the sender. -/
def handleMsg (cb : Option (Msg → Option Msg)) (data : List Nat) : HandleResult :=
  match ParseMsg data with
  | .err _ => .dropped
  | .panic => .panic
  | .ok req =>
    let res : Option Msg :=
      match cb with
      | none => none
      | some f => f req
    match res with
    | none => .noResponse
    | some r => .sent r.MarshalBytes

/-- The earlier `Server.handleMsg` (src/server.go lines 115-139): the
callback there returns a response and an error (`Bool` models error
non-nil), and is invoked unconditionally — a nil callback is a nil-function
call, a runtime fault. -/
def handleMsgV0 (cb : Option (Msg → Option Msg × Bool)) (data : List Nat) : HandleResult :=
  match ParseMsg data with
  | .err _ => .errored
  | .panic => .panic
  | .ok req =>
    match cb with
    | none => .panic
    | some f =>
      match f req with
      | (_, true) => .errored
      | (none, false) => .noResponse
      | (some r, false) => .sent r.MarshalBytes

/-- The observable `Server` lifecycle state (src/server_test.go lines
97-109): the `listening` flag, whether the UDP socket is open, whether the
cancellation context has fired, and whether the receive goroutine runs. -/
structure ServerState where
  listening : Bool
  socketOpen : Bool
  cancelled : Bool
  loopRunning : Bool
deriving DecidableEq, Repr

/-- `NewServer` (src/server_test.go lines 112-121): not listening, no
socket, context alive, no loop. -/
def ServerState.created : ServerState :=
  { listening := false, socketOpen := false, cancelled := false, loopRunning := false }

/-- `Server.Listening` (src/server_test.go lines 167-169). -/
def ServerState.Listening (s : ServerState) : Bool := s.listening

/-- Lifecycle errors: a failed bind (wrapped by `Start`) or a failed socket
close (returned by `Stop`). -/
inductive ServerErr where
  | bindFailed
  | closeFailed
deriving DecidableEq, Repr

/-- `Server.Start` (src/server_test.go lines 124-145): a no-op when already
listening; the bind outcome is the environment's and is passed as `bindOk` —
on success the socket opens, `listening` is set and the receive loop is
spawned; on failure the wrapped error is returned and nothing changes. -/
def Server.start (s : ServerState) (bindOk : Bool) : ServerState × Option ServerErr :=
  if s.listening then (s, none)
  else if bindOk then
    ({ s with socketOpen := true, listening := true, loopRunning := true }, none)
  else (s, some .bindFailed)

/-- `Server.Stop` (src/server_test.go lines 148-164): a no-op when not
listening; otherwise the cancellation context fires (stopping the loop) and
the socket is closed — a close failure is returned before `listening` is
cleared. -/
def Server.stop (s : ServerState) (closeOk : Bool) : ServerState × Option ServerErr :=
  if !s.listening then (s, none)
  else
    if closeOk then
      ({ s with cancelled := true, loopRunning := false, socketOpen := false,
                listening := false }, none)
    else ({ s with cancelled := true, loopRunning := false }, some .closeFailed)

/-- The earlier `Server.Start` (src/server.go lines 47-60): binds the socket
but never sets `listening` and never spawns the receive loop. -/
def Server.startV0 (s : ServerState) (bindOk : Bool) : ServerState × Option ServerErr :=
  if s.listening then (s, none)
  else if bindOk then ({ s with socketOpen := true }, none)
  else (s, some .bindFailed)

/-- The earlier `Server.Stop` (src/server.go lines 63-69): a no-op when not
listening, else cancel and close. -/
def Server.stopV0 (s : ServerState) (closeOk : Bool) : ServerState × Option ServerErr :=
  if !s.listening then (s, none)
  else if closeOk then
    ({ s with cancelled := true, loopRunning := false, socketOpen := false }, none)
  else ({ s with cancelled := true, loopRunning := false }, some .closeFailed)

/-! ## Association-list map lemmas -/

theorem find?_filter_of_imp {α : Type} (l : List α) (p q : α → Bool)
    (h : ∀ a, p a = true → q a = true) :
    (l.filter q).find? p = l.find? p := by
  induction l with
  | nil => rfl
  | cons x xs ih =>
    by_cases hq : q x = true
    · by_cases hp : p x = true
      · simp [List.filter_cons, hq, List.find?_cons_of_pos, hp]
      · simp [List.filter_cons, hq, List.find?_cons_of_neg, hp, ih]
    · have hp : p x = false := by
        cases hpx : p x
        · rfl
        · exact absurd (h x hpx) hq
      simp [List.filter_cons, hq, hp, ih]

theorem Options.lookup_insert (o : Options) (k : Nat) (v : List Nat)
    (k' : Nat) :
    (o.insert k v).lookup k' = if k' = k then some v else o.lookup k' := by
  unfold Options.insert Options.lookup
  rw [List.find?_append]
  by_cases h : k' = k
  · subst h
    have hnone : (o.filter (fun p => p.1 != k')).find? (fun p => p.1 == k') = none := by
      rw [List.find?_eq_none]
      intro p hp
      have h2 := List.of_mem_filter hp
      simp only [bne_iff_ne, ne_eq] at h2
      simp [h2]
    rw [hnone]
    simp
  · have heq : (o.filter (fun p => p.1 != k)).find? (fun p => p.1 == k') =
        o.find? (fun p => p.1 == k') := by
      apply find?_filter_of_imp
      intro a ha
      simp only [beq_iff_eq] at ha
      simp [ha]
      exact h
    rw [heq]
    have hone : (List.find? (fun p => p.1 == k') [(k, v)]) = none := by
      rw [List.find?_cons_of_neg]
      · rfl
      · simp
        exact fun hc => h hc.symm
    rw [hone, if_neg h, Option.or_none]

theorem Options.lookup_eq_none_iff (o : Options) (k : Nat) :
    o.lookup k = none ↔ k ∉ o.keys := by
  unfold Options.lookup Options.keys
  rw [Option.map_eq_none', List.find?_eq_none]
  constructor
  · intro h hk
    obtain ⟨p, hp, hpk⟩ := List.mem_map.mp hk
    exact h p hp (by simp [hpk])
  · intro h p hp
    simp only [beq_iff_eq]
    intro hpk
    exact h (List.mem_map.mpr ⟨p, hp, hpk⟩)

theorem Options.lookup_eq_some_of_mem {o : Options} (hnd : o.NodupKeys)
    {k : Nat} {v : List Nat} (hm : (k, v) ∈ o) : o.lookup k = some v := by
  induction o with
  | nil => cases hm
  | cons p t ih =>
    have hnd' : Options.NodupKeys t := by
      have := hnd
      unfold Options.NodupKeys Options.keys at this ⊢
      simp only [List.map_cons, List.nodup_cons] at this
      exact this.2
    have hhead : p.1 ∉ Options.keys t := by
      have := hnd
      unfold Options.NodupKeys Options.keys at this
      simp only [List.map_cons, List.nodup_cons] at this
      exact this.1
    rcases List.mem_cons.mp hm with hcase | hcase
    · unfold Options.lookup
      rw [← hcase, List.find?_cons_of_pos _ (by simp)]
      rfl
    · have hk : k ∈ Options.keys t :=
        List.mem_map.mpr ⟨(k, v), hcase, rfl⟩
      have hne : p.1 ≠ k := fun hc => hhead (hc ▸ hk)
      unfold Options.lookup
      rw [List.find?_cons_of_neg _ (by simp [hne])]
      exact ih hnd' hcase

theorem Options.lookup_perm {o₁ o₂ : Options} (hp : o₁.Perm o₂)
    (hnd : o₁.NodupKeys) (k : Nat) : o₁.lookup k = o₂.lookup k := by
  have hkeys : (Options.keys o₁).Perm (Options.keys o₂) := hp.map Prod.fst
  have hnd₂ : o₂.NodupKeys := by
    unfold Options.NodupKeys at hnd ⊢
    exact hkeys.nodup hnd
  cases h : o₁.lookup k with
  | none =>
    have hk : k ∉ Options.keys o₁ := (Options.lookup_eq_none_iff o₁ k).mp h
    have hk₂ : k ∉ Options.keys o₂ := fun hc => hk (hkeys.mem_iff.mpr hc)
    exact ((Options.lookup_eq_none_iff o₂ k).mpr hk₂).symm
  | some v =>
    unfold Options.lookup at h
    obtain ⟨q, hq, hqs⟩ := Option.map_eq_some'.mp h
    have hqk : q.1 = k := by
      have := List.find?_some hq
      simpa using this
    have hqmem : q ∈ o₁ := List.mem_of_find?_eq_some hq
    have hqpair : (k, v) ∈ o₁ := by
      have hq2 : q = (k, v) := Prod.ext hqk hqs
      exact hq2 ▸ hqmem
    have : (k, v) ∈ o₂ := hp.mem_iff.mp hqpair
    rw [Options.lookup_eq_some_of_mem hnd₂ this]

theorem Options.lookup_foldl_insert (ps : List (Nat × List Nat))
    (acc : Options) (hnd : Options.NodupKeys ps) (k : Nat) :
    ((ps.foldl (fun a p => a.insert p.1 p.2) acc).lookup k) =
      match Options.lookup ps k with
      | some v => some v
      | none => acc.lookup k := by
  induction ps generalizing acc with
  | nil => simp [Options.lookup]
  | cons p t ih =>
    have hnd' : Options.NodupKeys t := by
      unfold Options.NodupKeys Options.keys at hnd ⊢
      simp only [List.map_cons, List.nodup_cons] at hnd
      exact hnd.2
    have hhead : p.1 ∉ Options.keys t := by
      unfold Options.NodupKeys Options.keys at hnd
      simp only [List.map_cons, List.nodup_cons] at hnd
      exact hnd.1
    rw [List.foldl_cons, ih (acc.insert p.1 p.2) hnd']
    by_cases hk : k = p.1
    · have ht : Options.lookup t k = none := by
        rw [hk]
        exact (Options.lookup_eq_none_iff t p.1).mpr hhead
      rw [ht]
      have hh : Options.lookup (p :: t) k = some p.2 := by
        unfold Options.lookup
        rw [List.find?_cons_of_pos _ (by simp [hk])]
        rfl
      rw [hh, Options.lookup_insert]
      simp [hk]
    · have hh : Options.lookup (p :: t) k = Options.lookup t k := by
        unfold Options.lookup
        rw [List.find?_cons_of_neg _ (by simp; exact fun hc => hk hc.symm)]
      rw [hh, Options.lookup_insert, if_neg hk]

theorem Options.map_keys_lookup {o : Options} (hnd : o.NodupKeys) :
    o.keys.map (fun k => (k, (o.lookup k).getD [])) = o := by
  induction o with
  | nil => rfl
  | cons p t ih =>
    have hnd' : Options.NodupKeys t := by
      unfold Options.NodupKeys Options.keys at hnd ⊢
      simp only [List.map_cons, List.nodup_cons] at hnd
      exact hnd.2
    have hhead : p.1 ∉ Options.keys t := by
      unfold Options.NodupKeys Options.keys at hnd
      simp only [List.map_cons, List.nodup_cons] at hnd
      exact hnd.1
    have hk : Options.keys (p :: t) = p.1 :: Options.keys t := rfl
    rw [hk, List.map_cons]
    have hh : Options.lookup (p :: t) p.1 = some p.2 := by
      unfold Options.lookup
      rw [List.find?_cons_of_pos _ (by simp)]
      rfl
    rw [hh]
    have hcongr : (Options.keys t).map (fun k => (k, (Options.lookup (p :: t) k).getD []))
        = (Options.keys t).map (fun k => (k, (Options.lookup t k).getD [])) := by
      apply List.map_congr_left
      intro a ha
      have hne : p.1 ≠ a := fun hc => hhead (hc ▸ ha)
      have : Options.lookup (p :: t) a = Options.lookup t a := by
        unfold Options.lookup
        rw [List.find?_cons_of_neg _ (by simp [hne])]
      rw [this]
    rw [hcongr, ih hnd']
    simp

/-! ## Equations of the option-scanning loop -/

theorem parseOptionsLoop_nil (opts : Options) :
    parseOptionsLoop [] opts = .ok opts := by
  simp [parseOptionsLoop, bufReadByte]

theorem parseOptionsLoop_end (rest : List Nat) (opts : Options) :
    parseOptionsLoop (255 :: rest) opts = .ok opts := by
  simp [parseOptionsLoop, bufReadByte, OptionEnd]

theorem parseOptionsLoop_pad (rest : List Nat) (opts : Options) :
    parseOptionsLoop (0 :: rest) opts = parseOptionsLoop rest opts := by
  rw [parseOptionsLoop]
  simp [bufReadByte, OptionEnd, OptionPad]

theorem parseOptionsLoop_one (c : Nat) (opts : Options)
    (hc0 : c ≠ 0) (hc255 : c ≠ 255) :
    parseOptionsLoop [c] opts = .ok opts := by
  rw [parseOptionsLoop]
  simp [bufReadByte, OptionEnd, OptionPad, hc0, hc255]

theorem parseOptionsLoop_tlv (c l : Nat) (rest : List Nat) (opts : Options)
    (hc0 : c ≠ 0) (hc255 : c ≠ 255) :
    parseOptionsLoop (c :: l :: rest) opts =
      parseOptionsLoop (rest.drop l) (opts.insert c (rest.take l)) := by
  rw [parseOptionsLoop]
  simp [bufReadByte, OptionEnd, OptionPad, hc0, hc255]

/-- The byte stream `Options.MarshalBytes` produces for a list of
key/value pairs, before the end marker. -/
def encodePairs (ps : List (Nat × List Nat)) : List Nat :=
  ps.flatMap (fun p => optTLV p.1 p.2)

theorem parseOptionsLoop_encodePairs (ps : List (Nat × List Nat))
    (suffix : List Nat) (acc : Options)
    (hk : ∀ p ∈ ps, 1 ≤ p.1 ∧ p.1 ≤ 254) (hv : ∀ p ∈ ps, p.2.length ≤ 255) :
    parseOptionsLoop (encodePairs ps ++ 255 :: suffix) acc =
      .ok (ps.foldl (fun a p => a.insert p.1 p.2) acc) := by
  induction ps generalizing acc with
  | nil =>
    simp only [encodePairs, List.flatMap_nil, List.nil_append, List.foldl_nil]
    exact parseOptionsLoop_end suffix acc
  | cons p t ih =>
    obtain ⟨hk1, hk2⟩ := hk p (List.mem_cons_self p t)
    have hc0 : p.1 ≠ 0 := by omega
    have hc255 : p.1 ≠ 255 := by omega
    have hlen : p.2.length ≤ 255 := hv p (List.mem_cons_self p t)
    have hmod : p.2.length % 256 = p.2.length := Nat.mod_eq_of_lt (by omega)
    have hstream : encodePairs (p :: t) ++ 255 :: suffix =
        p.1 :: p.2.length % 256 :: (p.2 ++ (encodePairs t ++ 255 :: suffix)) := by
      simp [encodePairs, optTLV, List.append_assoc]
    rw [hstream,
      parseOptionsLoop_tlv p.1 (p.2.length % 256)
        (p.2 ++ (encodePairs t ++ 255 :: suffix)) acc hc0 hc255,
      hmod, List.take_left' rfl, List.drop_left' rfl,
      ih (acc.insert p.1 p.2)
        (fun q hq => hk q (List.mem_cons_of_mem p hq))
        (fun q hq => hv q (List.mem_cons_of_mem p hq)),
      List.foldl_cons]

/-- The keys in the order `Options.MarshalBytes` emits them. -/
def Options.sortedKeys (o : Options) : List Nat :=
  List.insertionSort (· ≤ ·) o.keys

/-- The key/value pairs in the order `Options.MarshalBytes` emits them. -/
def Options.sortedPairs (o : Options) : Options :=
  o.sortedKeys.map (fun k => (k, (o.lookup k).getD []))

theorem Options.marshalBytes_eq_encodePairs (o : Options) :
    o.MarshalBytes = encodePairs o.sortedPairs ++ [OptionEnd] := by
  unfold Options.MarshalBytes Options.sortedPairs Options.sortedKeys encodePairs
  rw [List.flatMap_map]

theorem Options.sortedPairs_perm {o : Options} (hnd : o.NodupKeys) :
    o.sortedPairs.Perm o := by
  unfold Options.sortedPairs Options.sortedKeys
  have h1 : (List.insertionSort (· ≤ ·) o.keys).Perm o.keys :=
    List.perm_insertionSort _ _
  have h2 := h1.map (fun k => (k, (o.lookup k).getD []))
  rw [Options.map_keys_lookup hnd] at h2
  exact h2

theorem Options.sortedPairs_nodupKeys {o : Options} (hnd : o.NodupKeys) :
    o.sortedPairs.NodupKeys := by
  have hp := Options.sortedPairs_perm hnd
  have := hp.map Prod.fst
  unfold Options.NodupKeys at hnd ⊢
  exact (this.nodup_iff).mpr hnd

/-- Parsing the marshalled options followed by any residue: the scan stops
at the end marker with exactly the encoded pairs, inserted in emission
order. -/
theorem ParseOptions_marshal_of_suffix (o : Options) (suffix : List Nat)
    (hnd : o.NodupKeys) (hk : ∀ p ∈ o, 1 ≤ p.1 ∧ p.1 ≤ 254)
    (hv : ∀ p ∈ o, p.2.length ≤ 255) :
    ∃ t : Options, ParseOptions (o.MarshalBytes ++ suffix) = .ok t ∧
      ∀ k, t.lookup k = o.lookup k := by
  have hperm := Options.sortedPairs_perm hnd
  have hk2 : ∀ p ∈ o.sortedPairs, 1 ≤ p.1 ∧ p.1 ≤ 254 :=
    fun p hp => hk p (hperm.mem_iff.mp hp)
  have hv2 : ∀ p ∈ o.sortedPairs, p.2.length ≤ 255 :=
    fun p hp => hv p (hperm.mem_iff.mp hp)
  have hstream : o.MarshalBytes ++ suffix =
      encodePairs o.sortedPairs ++ 255 :: suffix := by
    rw [Options.marshalBytes_eq_encodePairs, List.append_assoc]
    rfl
  refine ⟨_, by rw [ParseOptions, hstream,
    parseOptionsLoop_encodePairs _ _ _ hk2 hv2], fun k => ?_⟩
  rw [Options.lookup_foldl_insert _ _ (Options.sortedPairs_nodupKeys hnd) k,
    Options.lookup_perm hperm (Options.sortedPairs_nodupKeys hnd) k]
  cases Options.lookup o k <;> simp [Options.lookup]

/-- The scan always succeeds, and never adds an entry for a key the
accumulator does not already avoid among the control codes 0 and 255. -/
theorem parseOptionsLoop_ok_control : ∀ (n : Nat) (data : List Nat),
    data.length ≤ n → ∀ opts : Options,
    ∃ t : Options, parseOptionsLoop data opts = .ok t ∧
      (opts.lookup 0 = none → t.lookup 0 = none) ∧
      (opts.lookup 255 = none → t.lookup 255 = none) := by
  intro n
  induction n with
  | zero =>
    intro data hlen opts
    have hdata : data = [] := List.eq_nil_of_length_eq_zero (by omega)
    subst hdata
    exact ⟨opts, parseOptionsLoop_nil opts, id, id⟩
  | succ n ih =>
    intro data hlen opts
    cases data with
    | nil => exact ⟨opts, parseOptionsLoop_nil opts, id, id⟩
    | cons c rest =>
      by_cases hc255 : c = 255
      · subst hc255
        exact ⟨opts, parseOptionsLoop_end rest opts, id, id⟩
      · by_cases hc0 : c = 0
        · subst hc0
          rw [parseOptionsLoop_pad]
          apply ih rest _ opts
          simp at hlen
          omega
        · cases rest with
          | nil => exact ⟨opts, parseOptionsLoop_one c opts hc0 hc255, id, id⟩
          | cons l rest2 =>
            rw [parseOptionsLoop_tlv c l rest2 opts hc0 hc255]
            have hd : (rest2.drop l).length ≤ n := by
              have : (rest2.drop l).length ≤ rest2.length := by
                rw [List.length_drop]; omega
              simp at hlen
              omega
            obtain ⟨t, hok, ht0, ht255⟩ := ih (rest2.drop l) hd
              (opts.insert c (rest2.take l))
            refine ⟨t, hok, fun h0 => ht0 ?_, fun h255 => ht255 ?_⟩
            · rw [Options.lookup_insert, if_neg (by omega), h0]
            · rw [Options.lookup_insert, if_neg (by omega), h255]

/-! ## Claim theorems: the option codec -/

/-- C2: for every `Options` set whose keys are single-byte codes in 1..254
and whose values are at most 255 bytes long, `ParseOptions` of
`Options.MarshalBytes` succeeds and returns a set with the same
code-to-value mapping (same keys, byte-identical values). -/
theorem parseOptions_marshalBytes_roundtrip (s : Options) (hnd : s.NodupKeys)
    (hk : ∀ p ∈ s, 1 ≤ p.1 ∧ p.1 ≤ 254) (hv : ∀ p ∈ s, p.2.length ≤ 255) :
    ∃ t : Options, ParseOptions s.MarshalBytes = .ok t ∧
      ∀ k, t.lookup k = s.lookup k := by
  have h := ParseOptions_marshal_of_suffix s [] hnd hk hv
  rwa [List.append_nil] at h

/-- Witness for C2 at the message-type singleton of the repository's test
vectors. -/
theorem parseOptions_marshalBytes_roundtrip_witness :
    ∃ t : Options, ParseOptions (Options.MarshalBytes [(53, [1])]) = .ok t ∧
      ∀ k, t.lookup k = Options.lookup [(53, [1])] k :=
  parseOptions_marshalBytes_roundtrip [(53, [1])] (by decide) (by decide)
    (by decide)

/-- C3 (amended): the sorting `Options.MarshalBytes` of
src/unnamed/part_004 is deterministic on the logical map — two sets with
the same code-to-value mapping encode to byte-identical output. -/
theorem marshalBytes_deterministic (o₁ o₂ : Options)
    (h₁ : o₁.NodupKeys) (h₂ : o₂.NodupKeys)
    (h : ∀ k, o₁.lookup k = o₂.lookup k) :
    o₁.MarshalBytes = o₂.MarshalBytes := by
  have hmem : ∀ a, a ∈ o₁.keys ↔ a ∈ o₂.keys := by
    intro a
    rw [← not_iff_not, ← Options.lookup_eq_none_iff, ← Options.lookup_eq_none_iff,
      h a]
  have hkeysperm : o₁.keys.Perm o₂.keys :=
    (List.perm_ext_iff_of_nodup h₁ h₂).mpr hmem
  have hsorted : o₁.sortedKeys = o₂.sortedKeys := by
    unfold Options.sortedKeys
    exact @List.eq_of_perm_of_sorted ℕ (· ≤ ·) _ _ _
      (((List.perm_insertionSort _ _).trans hkeysperm).trans
        (List.perm_insertionSort (· ≤ ·) o₂.keys).symm)
      (List.sorted_insertionSort _ _) (List.sorted_insertionSort _ _)
  rw [Options.marshalBytes_eq_encodePairs, Options.marshalBytes_eq_encodePairs]
  unfold Options.sortedPairs
  rw [hsorted]
  have hmap : o₂.sortedKeys.map (fun k => (k, (o₁.lookup k).getD [])) =
      o₂.sortedKeys.map (fun k => (k, (o₂.lookup k).getD [])) :=
    List.map_congr_left (fun a _ => by rw [h a])
  rw [hmap]

/-- Witness for C3 at two singleton sets. -/
theorem marshalBytes_deterministic_witness :
    Options.MarshalBytes [(53, [1])] = Options.MarshalBytes [(53, [1])] :=
  marshalBytes_deterministic [(53, [1])] [(53, [1])] (by decide) (by decide)
    (fun _ => rfl)

/-- C3 counterexample: the earlier `Options.MarshalBytes` of
src/unnamed/part_001 emits entries in iteration order without sorting, so
two sets with the same code-to-value mapping (differing only in insertion
order) produce different bytes. -/
theorem marshalBytesV0_not_deterministic :
    ([(1, [7]), (3, [9])] : Options).Perm [(3, [9]), (1, [7])] ∧
    (∀ k, Options.lookup [(1, [7]), (3, [9])] k =
      Options.lookup [(3, [9]), (1, [7])] k) ∧
    Options.MarshalBytesV0 [(1, [7]), (3, [9])] ≠
      Options.MarshalBytesV0 [(3, [9]), (1, [7])] := by
  refine ⟨List.Perm.swap _ _ _, fun k => ?_, by decide⟩
  exact Options.lookup_perm (List.Perm.swap _ _ _) (by decide) k

/-- C6: `ParseOptions` of src/unnamed/part_004 treats code 0 as a pad that
consumes only its own byte, stops immediately at code 255 no matter what
follows, ends without error at end of buffer, and never stores keys 0 or
255. -/
theorem parseOptions_control_codes :
    (∀ rest : List Nat, ParseOptions (0 :: rest) = ParseOptions rest) ∧
    (∀ rest : List Nat, ParseOptions (255 :: rest) = .ok []) ∧
    ParseOptions [] = .ok [] ∧
    (∀ (data : List Nat) (t : Options), ParseOptions data = .ok t →
      t.lookup 0 = none ∧ t.lookup 255 = none) := by
  refine ⟨fun rest => parseOptionsLoop_pad rest [],
    fun rest => parseOptionsLoop_end rest [],
    parseOptionsLoop_nil [], fun data t hok => ?_⟩
  obtain ⟨t', hok', h0, h255⟩ :=
    parseOptionsLoop_ok_control data.length data le_rfl []
  rw [ParseOptions] at hok
  rw [hok] at hok'
  cases hok'
  exact ⟨h0 rfl, h255 rfl⟩

/-- C6 counterexample: the earlier `ParseOptions` of src/unnamed/part_001
breaks only out of its `switch` on code 255, so the scan continues past the
end marker; here it stores the option that follows 255 instead of
returning the empty set. -/
theorem parseOptionsV0_continues_past_end :
    ParseOptionsV0 [255, 53, 9, 7] = [(53, [7])] ∧
    Options.lookup (ParseOptionsV0 [255, 53, 9, 7]) 53 = some [7] := by
  constructor <;>
    simp [ParseOptionsV0, parseOptionsLoopV0, OptionEnd, OptionPad,
      OptionRequestedIPAddress, OptionDHCPMessageType, Options.insert,
      Options.lookup]

/-- C10: `ParseOptions` is total on its error channel — for every input
byte sequence (truncated mid-item, overlong length byte, missing end
marker included) the scan returns a nil error with the set accumulated so
far; the non-nil-error return is unreachable, because `io.EOF` is the only
error `bytes.Buffer.ReadByte` produces and both read sites turn it into a
normal stop. -/
theorem parseOptions_total (data : List Nat) :
    ∃ o : Options, ParseOptions data = .ok o := by
  obtain ⟨t, hok, -, -⟩ := parseOptionsLoop_ok_control data.length data le_rfl []
  exact ⟨t, hok⟩

/-! ## Claim theorems: the message codec boundaries and accessors -/

/-- C4: decoding boundaries.  A 235-byte buffer is a short read; the
lenient variant accepts exactly 236 bytes with an empty option set; but the
validating variant, handed a 236-byte buffer with hlen 6, slices
`data[236:240]` past the end of the buffer — a runtime panic, not a
returned error. -/
theorem parseMsg_boundary_panic :
    ParseMsg (List.replicate 235 0) = .err .shortRead ∧
    Except.map MsgL.Opts (ParseMsgL (1 :: 1 :: 6 :: List.replicate 233 0)) =
      .ok [] ∧
    ParseMsg (1 :: 1 :: 6 :: List.replicate 233 0) = .panic := by
  refine ⟨by decide, by decide, by decide⟩

/-- C7: the accessors honour the not-present condition, and
`DHCPMessageType`/`ClientID` honour the short-read condition, but
`RenewalTime`/`RebindingTime` read eight bytes with no length check — a
too-short stored value (here the RFC-sized 4-byte duration) is a runtime
fault, not a short-read error — and `SubnetMask` returns a too-short value
without any error. -/
theorem accessor_short_value_fault :
    Options.RenewalTime [(58, [0, 0, 14, 16])] = .panic ∧
    Options.RebindingTime [(59, [0, 0, 14, 16])] = .panic ∧
    Options.SubnetMask [(1, [255, 255])] = .ok [255, 255] ∧
    Options.DHCPMessageType [(53, [])] = .errShortRead ∧
    Options.ClientID [(61, [1])] = .errShortRead ∧
    Options.RenewalTime [] = .errNotPresent ∧
    Options.SubnetMask [] = .errNotPresent := by
  refine ⟨by decide, by decide, by decide, by decide, by decide, by decide,
    by decide⟩

/-- C5 (amended): the padded `Msg.MarshalBytes` of src/message.go emits at
least 272 bytes, and when the assembled content is shorter the output is
exactly the content zero-extended to 272 bytes. -/
theorem marshalBytes_min_length (m : Msg) :
    272 ≤ m.MarshalBytes.length ∧
    (m.contentBytes.length < 272 →
      m.MarshalBytes = m.contentBytes ++
        List.replicate (272 - m.contentBytes.length) 0 ∧
      m.MarshalBytes.length = 272) := by
  unfold Msg.MarshalBytes
  by_cases h : m.contentBytes.length < 272
  · rw [if_pos h]
    refine ⟨by simp; omega, fun _ => ⟨rfl, by simp; omega⟩⟩
  · rw [if_neg h]
    exact ⟨by omega, fun hc => absurd hc h⟩

/-- The all-zero message of the lenient-variant struct. -/
def zeroMsgL : MsgL :=
  { Op := 0, Htype := 0, Hlen := 0, Hops := 0, Xid := 0, Secs := 0,
    Flags := 0, Ciaddr := [], Yiaddr := [], Siaddr := [], Giaddr := [],
    Chaddr := [], Sname := [], File := [], Cookie := 0, Opts := [] }

/-- C5 counterexample: the earlier `Msg.MarshalBytes`
(src/server_test.go lines 390-417) writes fields unpadded and has no
272-byte floor — the zero message marshals to 12 bytes. -/
theorem marshalBytesV0_below_min :
    (MsgL.MarshalBytesV0 zeroMsgL).length = 12 ∧
    ¬ 272 ≤ (MsgL.MarshalBytesV0 zeroMsgL).length := by
  refine ⟨by decide, by decide⟩

/-! ## The successful path of ParseMsg -/

/-- When every check of `ParseMsg` passes, the parsed message is the fixed
fields read at their offsets together with the parsed options. -/
theorem parseMsg_spec (data : List Nat) (opts : Options)
    (h236 : ¬ data.length < 236) (hhl : data.getD 2 0 = 6)
    (h240 : ¬ data.length < 240)
    (hck : beVal (slice data 236 240) = Cookie)
    (hopts : ParseOptions (data.drop 240) = .ok opts) :
    ParseMsg data = .ok
      { Op := data.getD 0 0, Htype := data.getD 1 0, Hlen := data.getD 2 0,
        Hops := data.getD 3 0, Xid := beVal (slice data 4 8),
        Secs := beVal (slice data 8 10), Flags := beVal (slice data 10 12),
        Ciaddr := slice data 12 16, Yiaddr := slice data 16 20,
        Siaddr := slice data 20 24, Giaddr := slice data 24 28,
        Chaddr := slice data 28 34, Sname := trimNulRight (slice data 44 108),
        File := trimNulRight (slice data 108 236), Opts := opts } := by
  unfold ParseMsg
  rw [if_neg h236, if_neg (by rw [hhl]; exact fun hc => hc rfl),
    if_neg h240, if_neg (by rw [hck]; exact fun hc => hc rfl), hopts]

/-- A well-formed 241-byte datagram: header with hlen 6, all-zero fields,
the magic cookie and an options section of just the end marker. -/
def okDgram : List Nat :=
  1 :: 1 :: 6 :: (List.replicate 233 0 ++ [0x63, 0x82, 0x53, 0x63, 255])

/-- The message `ParseMsg` yields for `okDgram`. -/
def okMsg : Msg :=
  { Op := 1, Htype := 1, Hlen := 6, Hops := 0, Xid := 0, Secs := 0, Flags := 0,
    Ciaddr := [0, 0, 0, 0], Yiaddr := [0, 0, 0, 0], Siaddr := [0, 0, 0, 0],
    Giaddr := [0, 0, 0, 0], Chaddr := [0, 0, 0, 0, 0, 0], Sname := [],
    File := [], Opts := [] }

theorem parseMsg_okDgram : ParseMsg okDgram = .ok okMsg := by
  have h := parseMsg_spec okDgram [] (by decide) (by decide) (by decide)
    (by decide)
    (by rw [show okDgram.drop 240 = [255] from by decide]
        exact parseOptionsLoop_end [] [])
  rw [h]
  decide

/-! ## Claim theorems: the server -/

/-- C8 (amended): in the nil-checked dispatch path of src/server_test.go
lines 207-233, a successfully decoded datagram with no registered handler
produces no response and completes without fault. -/
theorem handleMsg_nil_callback (data : List Nat) (m : Msg)
    (h : ParseMsg data = .ok m) :
    handleMsg none data = .noResponse := by
  unfold handleMsg
  rw [h]

/-- Witness for C8 at the concrete datagram `okDgram`. -/
theorem handleMsg_nil_callback_witness :
    handleMsg none okDgram = .noResponse :=
  handleMsg_nil_callback okDgram okMsg parseMsg_okDgram

/-- C8 counterexample: the earlier dispatch path (src/server.go lines
115-139) calls the callback unconditionally, so with no handler registered
a successfully decoded datagram dereferences a nil function — a runtime
fault, not a quiet no-response. -/
theorem handleMsgV0_nil_callback_faults :
    handleMsgV0 none okDgram = .panic ∧
    handleMsgV0 none okDgram ≠ .noResponse := by
  have h : ParseMsg okDgram = .ok okMsg := parseMsg_okDgram
  refine ⟨?_, ?_⟩ <;> simp [handleMsgV0, h]

/-- C9 (amended): the later server (src/server_test.go lines 124-169)
follows the Created → Listening → Stopped state machine: `Start` on a
listening server is a no-op returning nil; a successful `Start` opens the
socket, spawns the receive loop and makes `Listening()` report true; a
bind failure returns the wrapped error and leaves the server not
listening; `Stop` when not listening is a no-op; a successful `Stop`
fires the cancellation, closes the socket and makes `Listening()` report
false. -/
theorem server_state_machine (s : ServerState) (b c : Bool) :
    (s.listening = true → Server.start s b = (s, none)) ∧
    (s.listening = false → b = true →
      (Server.start s b).1.Listening = true ∧
      (Server.start s b).1.loopRunning = true ∧
      (Server.start s b).1.socketOpen = true ∧
      (Server.start s b).2 = none) ∧
    (s.listening = false → b = false →
      Server.start s b = (s, some .bindFailed) ∧
      (Server.start s b).1.Listening = false) ∧
    (s.listening = false → Server.stop s c = (s, none)) ∧
    (s.listening = true → c = true →
      (Server.stop s c).1.cancelled = true ∧
      (Server.stop s c).1.socketOpen = false ∧
      (Server.stop s c).1.Listening = false ∧
      (Server.stop s c).2 = none) := by
  rcases s with ⟨l, so, ca, lr⟩
  cases l <;> cases b <;> cases c <;>
    simp [Server.start, Server.stop, ServerState.Listening]

/-- C9 counterexample: the earlier `Server.Start` (src/server.go lines
47-60) binds the socket but never sets the listening flag and never spawns
the receive loop, so after a successful start the server still reports not
listening. -/
theorem serverV0_start_not_listening :
    (Server.startV0 ServerState.created true).2 = none ∧
    (Server.startV0 ServerState.created true).1.socketOpen = true ∧
    (Server.startV0 ServerState.created true).1.Listening = false ∧
    (Server.startV0 ServerState.created true).1.loopRunning = false := by
  refine ⟨by decide, by decide, by decide, by decide⟩

/-! ## Helper lemmas for the message round trip -/

theorem u32be_length (x : Nat) : (u32be x).length = 4 := rfl

theorem u16be_length (x : Nat) : (u16be x).length = 2 := rfl

theorem beVal_u32be (x : Nat) (h : x < 4294967296) : beVal (u32be x) = x := by
  unfold beVal u32be
  simp only [List.foldl_cons, List.foldl_nil]
  omega

theorem beVal_u16be (x : Nat) (h : x < 65536) : beVal (u16be x) = x := by
  unfold beVal u16be
  simp only [List.foldl_cons, List.foldl_nil]
  omega

theorem ipTo4_of_length_four {ip : List Nat} (h : ip.length = 4) :
    ipTo4 ip = ip := by
  unfold ipTo4
  rw [if_pos h]

theorem padTo_eq_append {src : List Nat} (n : Nat) (h : src.length ≤ n) :
    padTo n src = src ++ List.replicate (n - src.length) 0 := by
  unfold padTo
  rw [List.take_of_length_le h]

theorem padTo_length {src : List Nat} (n : Nat) (h : src.length ≤ n) :
    (padTo n src).length = n := by
  rw [padTo_eq_append n h]
  simp
  omega

theorem dropWhile_zero_replicate (k : Nat) :
    List.dropWhile (· == 0) (List.replicate k (0 : Nat)) = [] := by
  induction k with
  | zero => rfl
  | succ k ih => rw [List.replicate_succ, List.dropWhile_cons]; simp [ih]

theorem trimNulRight_append_replicate (s : List Nat) (k : Nat)
    (h : s.getLast? ≠ some 0) :
    trimNulRight (s ++ List.replicate k 0) = s := by
  unfold trimNulRight
  rw [List.reverse_append, List.reverse_replicate, List.dropWhile_append,
    dropWhile_zero_replicate]
  simp only [List.isEmpty_nil, if_true]
  cases hs : s.reverse with
  | nil =>
    have : s = [] := by
      have := congrArg List.reverse hs
      simpa using this
    simp [this]
  | cons a t =>
    have hhead : s.getLast? = some a := by
      rw [← List.head?_reverse, hs]
      rfl
    have ha : ¬ a = 0 := fun hc => h (by rw [hhead, hc])
    rw [List.dropWhile_cons]
    simp only [ha, beq_iff_eq, if_false]
    rw [← hs]
    simp

/-- Advance a drop equation past one fixed-width segment. -/
theorem drop_seg {D A R : List Nat} {i n j : Nat}
    (hD : D.drop i = A ++ R) (hA : A.length = n) (hj : j = i + n) :
    D.drop j = R := by
  subst hj
  rw [← List.drop_drop, hD, List.drop_left' hA]

/-- A whole fixed-width segment, as a Go slice expression. -/
theorem slice_at {D A R : List Nat} {i n j : Nat}
    (hD : D.drop i = A ++ R) (hA : A.length = n) (hj : j = i + n) :
    slice D i j = A := by
  subst hj
  unfold slice
  rw [hD]
  have h1 : i + n - i = n := by omega
  rw [h1, List.take_left' hA]

/-- A prefix of a fixed-width segment, as a Go slice expression. -/
theorem slice_at_take {D A R : List Nat} {i n j m : Nat}
    (hD : D.drop i = A ++ R) (hA : A.length = n) (hj : j = i + m)
    (hm : m ≤ n) :
    slice D i j = A.take m := by
  subst hj
  unfold slice
  rw [hD]
  have h1 : i + m - i = m := by omega
  rw [h1, List.take_append_of_le_length (by omega)]

/-- Reading the fixed fields of a buffer laid out the way the marshaller
writes it: four header bytes, twelve fixed-width segments, then the rest
(cookie position 236, options from 240). -/
theorem parseMsg_segments (op htype hlen hops : Nat)
    (xid secs flags ci yi si gi ch sn fl ck rest : List Nat)
    (hx : xid.length = 4) (hs : secs.length = 2) (hf : flags.length = 2)
    (hci : ci.length = 4) (hyi : yi.length = 4) (hsi : si.length = 4)
    (hgi : gi.length = 4) (hch : ch.length = 16) (hsn : sn.length = 64)
    (hfl : fl.length = 128) (hck : ck.length = 4) (D : List Nat)
    (hD : D = op :: htype :: hlen :: hops :: (xid ++ (secs ++ (flags ++
      (ci ++ (yi ++ (si ++ (gi ++ (ch ++ (sn ++ (fl ++ (ck ++ rest)))))))))))) :
    D.length = 240 + rest.length ∧
    D.getD 0 0 = op ∧ D.getD 1 0 = htype ∧ D.getD 2 0 = hlen ∧
    D.getD 3 0 = hops ∧
    slice D 4 8 = xid ∧ slice D 8 10 = secs ∧ slice D 10 12 = flags ∧
    slice D 12 16 = ci ∧ slice D 16 20 = yi ∧ slice D 20 24 = si ∧
    slice D 24 28 = gi ∧ slice D 28 34 = ch.take 6 ∧
    slice D 44 108 = sn ∧ slice D 108 236 = fl ∧
    slice D 236 240 = ck ∧ D.drop 240 = rest := by
  have d4 : D.drop 4 = xid ++ (secs ++ (flags ++ (ci ++ (yi ++ (si ++
      (gi ++ (ch ++ (sn ++ (fl ++ (ck ++ rest)))))))))) := by
    rw [hD]
    rfl
  have d8 := drop_seg d4 hx (by norm_num : (8 : Nat) = 4 + 4)
  have d10 := drop_seg d8 hs (by norm_num : (10 : Nat) = 8 + 2)
  have d12 := drop_seg d10 hf (by norm_num : (12 : Nat) = 10 + 2)
  have d16 := drop_seg d12 hci (by norm_num : (16 : Nat) = 12 + 4)
  have d20 := drop_seg d16 hyi (by norm_num : (20 : Nat) = 16 + 4)
  have d24 := drop_seg d20 hsi (by norm_num : (24 : Nat) = 20 + 4)
  have d28 := drop_seg d24 hgi (by norm_num : (28 : Nat) = 24 + 4)
  have d44 := drop_seg d28 hch (by norm_num : (44 : Nat) = 28 + 16)
  have d108 := drop_seg d44 hsn (by norm_num : (108 : Nat) = 44 + 64)
  have d236 := drop_seg d108 hfl (by norm_num : (236 : Nat) = 108 + 128)
  have d240 := drop_seg d236 hck (by norm_num : (240 : Nat) = 236 + 4)
  refine ⟨?_, by rw [hD]; rfl, by rw [hD]; rfl, by rw [hD]; rfl,
    by rw [hD]; rfl,
    slice_at d4 hx (by norm_num), slice_at d8 hs (by norm_num),
    slice_at d10 hf (by norm_num), slice_at d12 hci (by norm_num),
    slice_at d16 hyi (by norm_num), slice_at d20 hsi (by norm_num),
    slice_at d24 hgi (by norm_num),
    slice_at_take d28 hch (by norm_num : (34 : Nat) = 28 + 6) (by omega),
    slice_at d44 hsn (by norm_num), slice_at d108 hfl (by norm_num),
    slice_at d236 hck (by norm_num), d240⟩
  rw [hD]
  simp only [List.length_cons, List.length_append, hx, hs, hf, hci, hyi,
    hsi, hgi, hch, hsn, hfl, hck]
  omega

/-! ## Claim theorem: the message round trip -/

/-- C1: for every well-formed `Msg` — hlen 6, a 6-byte hardware address,
4-byte addresses, in-range scalar fields, server-name and boot-file fitting
their fixed widths with no trailing NUL bytes, and option codes 1..254 with
values of at most 255 bytes — `ParseMsg` of `Msg.MarshalBytes` succeeds and
reproduces every field, the string fields exactly as supplied before
padding and the option set with the same code-to-value mapping. -/
theorem parseMsg_marshalBytes_roundtrip (m : Msg)
    (hHlen : m.Hlen = 6)
    (hXid : m.Xid < 4294967296) (hSecs : m.Secs < 65536)
    (hFlags : m.Flags < 65536)
    (hCi : m.Ciaddr.length = 4) (hYi : m.Yiaddr.length = 4)
    (hSi : m.Siaddr.length = 4) (hGi : m.Giaddr.length = 4)
    (hCh : m.Chaddr.length = 6)
    (hSn : m.Sname.length ≤ 64) (hSnNul : m.Sname.getLast? ≠ some 0)
    (hFi : m.File.length ≤ 128) (hFiNul : m.File.getLast? ≠ some 0)
    (hnd : m.Opts.NodupKeys)
    (hk : ∀ p ∈ m.Opts, 1 ≤ p.1 ∧ p.1 ≤ 254)
    (hv : ∀ p ∈ m.Opts, p.2.length ≤ 255) :
    ∃ m' : Msg, ParseMsg m.MarshalBytes = .ok m' ∧
      m'.Op = m.Op ∧ m'.Htype = m.Htype ∧ m'.Hlen = m.Hlen ∧
      m'.Hops = m.Hops ∧ m'.Xid = m.Xid ∧ m'.Secs = m.Secs ∧
      m'.Flags = m.Flags ∧ m'.Ciaddr = m.Ciaddr ∧ m'.Yiaddr = m.Yiaddr ∧
      m'.Siaddr = m.Siaddr ∧ m'.Giaddr = m.Giaddr ∧ m'.Chaddr = m.Chaddr ∧
      m'.Sname = m.Sname ∧ m'.File = m.File ∧
      ∀ k, Options.lookup m'.Opts k = Options.lookup m.Opts k := by
  have hmarshal : m.MarshalBytes =
      m.contentBytes ++ List.replicate (272 - m.contentBytes.length) 0 := by
    unfold Msg.MarshalBytes
    by_cases h : m.contentBytes.length < 272
    · rw [if_pos h]
    · rw [if_neg h]
      have h0 : 272 - m.contentBytes.length = 0 := by omega
      rw [h0, List.replicate_zero, List.append_nil]
  set pad := List.replicate (272 - m.contentBytes.length) 0 with hpad
  have hD : m.MarshalBytes =
      m.Op :: m.Htype :: m.Hlen :: m.Hops :: (u32be m.Xid ++ (u16be m.Secs ++
      (u16be m.Flags ++ (m.Ciaddr ++ (m.Yiaddr ++ (m.Siaddr ++ (m.Giaddr ++
      ((m.Chaddr ++ List.replicate (16 - m.Chaddr.length) 0) ++
      ((m.Sname ++ List.replicate (64 - m.Sname.length) 0) ++
      ((m.File ++ List.replicate (128 - m.File.length) 0) ++
      (u32be Cookie ++ (m.Opts.MarshalBytes ++ pad)))))))))))) := by
    rw [hmarshal]
    unfold Msg.contentBytes
    rw [ipTo4_of_length_four hCi, ipTo4_of_length_four hYi,
      ipTo4_of_length_four hSi, ipTo4_of_length_four hGi,
      padTo_eq_append 16 (by omega), padTo_eq_append 64 hSn,
      padTo_eq_append 128 hFi]
    simp only [List.append_assoc, List.cons_append, List.nil_append]
  obtain ⟨tOpts, hOptsOk, hOptsLk⟩ :=
    ParseOptions_marshal_of_suffix m.Opts pad hnd hk hv
  obtain ⟨hLen, g0, g1, g2, g3, s48, s810, s1012, s1216, s1620, s2024,
    s2428, s2834, s44108, s108236, s236240, sdrop⟩ :=
    parseMsg_segments m.Op m.Htype m.Hlen m.Hops (u32be m.Xid)
      (u16be m.Secs) (u16be m.Flags) m.Ciaddr m.Yiaddr m.Siaddr m.Giaddr
      (m.Chaddr ++ List.replicate (16 - m.Chaddr.length) 0)
      (m.Sname ++ List.replicate (64 - m.Sname.length) 0)
      (m.File ++ List.replicate (128 - m.File.length) 0)
      (u32be Cookie) (m.Opts.MarshalBytes ++ pad)
      (u32be_length _) (u16be_length _) (u16be_length _) hCi hYi hSi hGi
      (by simp only [List.length_append, List.length_replicate]; omega)
      (by simp only [List.length_append, List.length_replicate]; omega)
      (by simp only [List.length_append, List.length_replicate]; omega)
      (u32be_length _) m.MarshalBytes hD
  have h236 : ¬ m.MarshalBytes.length < 236 := by omega
  have h240 : ¬ m.MarshalBytes.length < 240 := by omega
  have hhl : m.MarshalBytes.getD 2 0 = 6 := by rw [g2, hHlen]
  have hckv : beVal (slice m.MarshalBytes 236 240) = Cookie := by
    rw [s236240]
    exact beVal_u32be Cookie (by norm_num [Cookie])
  have hopts : ParseOptions (m.MarshalBytes.drop 240) = .ok tOpts := by
    rw [sdrop]
    exact hOptsOk
  have hfinal := parseMsg_spec m.MarshalBytes tOpts h236 hhl h240 hckv hopts
  have hchaddr : (m.Chaddr ++ List.replicate (16 - m.Chaddr.length) 0).take 6
      = m.Chaddr := by
    rw [List.take_append_of_le_length (by omega),
      List.take_of_length_le (by omega)]
  rw [g0, g1, g2, g3, s48, s810, s1012, s1216, s1620, s2024, s2428, s2834,
    s44108, s108236, hchaddr, beVal_u32be _ hXid, beVal_u16be _ hSecs,
    beVal_u16be _ hFlags, trimNulRight_append_replicate m.Sname _ hSnNul,
    trimNulRight_append_replicate m.File _ hFiNul] at hfinal
  exact ⟨_, hfinal, rfl, rfl, rfl, rfl, rfl, rfl, rfl, rfl, rfl, rfl, rfl,
    rfl, rfl, rfl, hOptsLk⟩

/-- A concrete well-formed message: a DHCPOFFER with a subnet-mask option,
a 3-byte server name and an empty boot file. -/
def sampleMsg : Msg :=
  { Op := 2, Htype := 1, Hlen := 6, Hops := 0, Xid := 305419896, Secs := 1,
    Flags := 32768, Ciaddr := [0, 0, 0, 0], Yiaddr := [192, 168, 1, 2],
    Siaddr := [10, 0, 0, 1], Giaddr := [0, 0, 0, 0],
    Chaddr := [0, 17, 34, 51, 68, 85], Sname := [115, 114, 118],
    File := [], Opts := [(53, [2]), (1, [255, 255, 255, 0])] }

/-- Witness for C1 at `sampleMsg`. -/
theorem parseMsg_marshalBytes_roundtrip_witness :
    ∃ m' : Msg, ParseMsg sampleMsg.MarshalBytes = .ok m' ∧
      m'.Op = sampleMsg.Op ∧ m'.Htype = sampleMsg.Htype ∧
      m'.Hlen = sampleMsg.Hlen ∧ m'.Hops = sampleMsg.Hops ∧
      m'.Xid = sampleMsg.Xid ∧ m'.Secs = sampleMsg.Secs ∧
      m'.Flags = sampleMsg.Flags ∧ m'.Ciaddr = sampleMsg.Ciaddr ∧
      m'.Yiaddr = sampleMsg.Yiaddr ∧ m'.Siaddr = sampleMsg.Siaddr ∧
      m'.Giaddr = sampleMsg.Giaddr ∧ m'.Chaddr = sampleMsg.Chaddr ∧
      m'.Sname = sampleMsg.Sname ∧ m'.File = sampleMsg.File ∧
      ∀ k, Options.lookup m'.Opts k = Options.lookup sampleMsg.Opts k :=
  parseMsg_marshalBytes_roundtrip sampleMsg (by decide) (by decide)
    (by decide) (by decide) (by decide) (by decide) (by decide) (by decide)
    (by decide) (by decide) (by decide) (by decide) (by decide) (by decide)
    (by decide) (by decide)

end Jdhcp
